import Mathlib

set_option autoImplicit false

/-!
# Verification of the flat-ONNX-to-nested-graphbook conversion

Shallow embedding of `src/PyGraphbook/src/onnx/onnx_2_graphbook.py`.

Python strings are modelled as Lean `String`s; the Python string operations
used by the source (`str.split("/")`, `"/".join`, `str.startswith`, `+`)
are modelled by `strSplit`, `strJoin`, `strStartsWith` and `String.append`,
defined below by structural recursion on the character list so that they
have the exact semantics of the Python operations.

The mutable `var_map` (a `defaultdict(dict)` mapping a composite path to a
dict with optional keys `"input"` / `"output"`, each holding a list of
variable names) is modelled as a total function `String → ScopeEntry` where
each optional dict key becomes an `Option (List String)` field.
-/

/-- Python `s.split("/")` on the character list: `""` splits to `[""]`,
separators delimit possibly empty segments. -/
def splitSeg : List Char → List (List Char)
  | [] => [[]]
  | c :: cs =>
    if c = '/' then [] :: splitSeg cs
    else
      match splitSeg cs with
      | [] => [[c]]
      | s :: ss => (c :: s) :: ss

/-- Python `path.split("/")` (`FORWARD_SLASH = "/"` in the source). -/
def strSplit (s : String) : List String :=
  (splitSeg s.data).map (fun l => String.mk l)

/-- Python `"/".join(parts)`. -/
def strJoin : List String → String
  | [] => ""
  | [a] => a
  | a :: rest => a ++ "/" ++ strJoin rest

/-- Python `s.startswith(p)`. -/
def strStartsWith (s p : String) : Bool :=
  p.data.isPrefixOf s.data

/-- One scope's slot of the `var_map`: the Python per-path dict with its two
optional keys `"input"` and `"output"`. `none` models an absent key. -/
structure ScopeEntry where
  input : Option (List String)
  output : Option (List String)
deriving DecidableEq

/-- The `var_map` / `composite_var_map` accumulator: `defaultdict(dict)`
keyed by composite path. -/
def VarMap : Type := String → ScopeEntry

def emptyVarMap : VarMap := fun _ => ⟨none, none⟩

/-- The source's add-if-absent idiom
`if var_name not in lst: lst.append(var_name)`. -/
def addList (v : String) (l : List String) : List String :=
  if v ∈ l then l else l ++ [v]

/-- Lines 40-44 of the source, for one `join_back` key: ensure the
`"input"` key exists, then append `var_name` if it is not present. -/
def addInputKey (m : VarMap) (k v : String) : VarMap :=
  fun q => if q = k then ⟨some (addList v ((m q).input.getD [])), (m q).output⟩ else m q

/-- Lines 52-56 of the source, for one `join_back` key: ensure the
`"output"` key exists, then append `var_name` if it is not present. -/
def addOutputKey (m : VarMap) (k v : String) : VarMap :=
  fun q => if q = k then ⟨(m q).input, some (addList v ((m q).output.getD []))⟩ else m q

/-- A source `for` loop that runs `addInputKey` on a sequence of keys. -/
def addInputList (v : String) (ks : List String) (m : VarMap) : VarMap :=
  ks.foldl (fun m k => addInputKey m k v) m

/-- A source `for` loop that runs `addOutputKey` on a sequence of keys. -/
def addOutputList (v : String) (ks : List String) (m : VarMap) : VarMap :=
  ks.foldl (fun m k => addOutputKey m k v) m

/-- The `shared_parts` computation of lines 103-108: joined common prefixes
of the two split paths, collected until the first mismatch (`break`). -/
def sharedParts (l1 l2 : List String) : List String :=
  (List.range (commonLen l1 l2)).map (fun i => strJoin (l1.take (i + 1)))
where
  /-- Number of loop iterations before the `break`: the count of leading
  positions where the two split paths agree (the prefix lists
  `path1_split[:i+1]` and `path2_split[:i+1]` are equal exactly when all
  positions up to `i` agree). -/
  commonLen : List String → List String → Nat
    | a :: as, b :: bs => if a = b then commonLen as bs + 1 else 0
    | _, _ => 0

/-- The key sequence of the first loop of the source that adds `"input"`
entries, for each branch of `_calculate_composite_input_outputs`
(empty when the branch adds no inputs). -/
def calcInputKeys (path1 path2 : String) : List String :=
  if path1 = "" then
    -- lines 37-44: `for i in range(1, len(path2_split))`
    let path2_split := strSplit path2
    (List.range' 1 (path2_split.length - 1)).map
      (fun i => strJoin (path2_split.take (i + 1)))
  else if path2 = "" then []
  else if strStartsWith path1 path2 then []
  else if strStartsWith path2 path1 then
    -- lines 79-94: `partial_split = path2_split[len(path1_split):]`
    let path1_split := strSplit path1
    let path2_split := strSplit path2
    let partial_split := path2_split.drop path1_split.length
    (List.range partial_split.length).map
      (fun i => path1 ++ "/" ++ strJoin (partial_split.take (i + 1)))
  else
    -- lines 121-128; the `continue` on shared parts is a filter
    let path1_split := strSplit path1
    let path2_split := strSplit path2
    let shared := sharedParts path1_split path2_split
    ((List.range path2_split.length).map
      (fun i => strJoin (path2_split.take (i + 1)))).filter (fun k => k ∉ shared)

/-- The key sequence of the loop of the source that adds `"output"` entries,
for each branch of `_calculate_composite_input_outputs`. -/
def calcOutputKeys (path1 path2 : String) : List String :=
  if path1 = "" then []
  else if path2 = "" then
    -- lines 49-56: `for i in range(len(path1_split))`
    let path1_split := strSplit path1
    (List.range path1_split.length).map
      (fun i => strJoin (path1_split.take (i + 1)))
  else if strStartsWith path1 path2 then
    -- lines 65-77: `partial_split = path1_split[len(path2_split):]`
    let path1_split := strSplit path1
    let path2_split := strSplit path2
    let partial_split := path1_split.drop path2_split.length
    (List.range partial_split.length).map
      (fun i => path2 ++ "/" ++ strJoin (partial_split.take (i + 1)))
  else if strStartsWith path2 path1 then []
  else
    -- lines 112-119; the `continue` on shared parts is a filter
    let path1_split := strSplit path1
    let path2_split := strSplit path2
    let shared := sharedParts path1_split path2_split
    ((List.range path1_split.length).map
      (fun i => strJoin (path1_split.take (i + 1)))).filter (fun k => k ∉ shared)

/-- `_calculate_composite_input_outputs(var_name, path1, path2, var_map)`
(lines 18-128 of the source).  Each of the five branches performs its
output-adding loop (if any) and then its input-adding loop (if any); in the
cross-stream branch the outputs loop (lines 112-119) runs before the inputs
loop (lines 121-128), which the composition order below preserves.  A
`None` composite path passed by the callers is modelled as `""` (both are
falsy in Python and only reach the two `not path` tests). -/
def calcCompositeInputOutputs (var_name path1 path2 : String) (var_map : VarMap) : VarMap :=
  addInputList var_name (calcInputKeys path1 path2)
    (addOutputList var_name (calcOutputKeys path1 path2) var_map)

/-! ## Pointwise characterisation of the propagator -/

theorem addList_mem (v : String) (l : List String) : v ∈ addList v l := by
  unfold addList; split
  · assumption
  · simp

theorem addList_of_mem {v : String} {l : List String} (h : v ∈ l) : addList v l = l := by
  unfold addList; simp [h]

theorem addList_idem (v : String) (l : List String) : addList v (addList v l) = addList v l :=
  addList_of_mem (addList_mem v l)

theorem mem_addList_of_mem {w v : String} {l : List String} (h : w ∈ l) : w ∈ addList v l := by
  unfold addList; split
  · exact h
  · exact List.mem_append_left _ h

theorem addList_nodup {v : String} {l : List String} (h : l.Nodup) : (addList v l).Nodup := by
  unfold addList; split
  · exact h
  · simp [List.nodup_append, h, *]

theorem addList_pre (v : String) (l : List String) : l <+: addList v l := by
  unfold addList; split
  · exact List.prefix_refl l
  · exact ⟨[v], rfl⟩

/-- Pointwise value of a fold of `addInputKey` over a key list: repeated
hits collapse because the add is idempotent. -/
theorem addInputList_apply (v : String) (ks : List String) (m : VarMap) (k : String) :
    (addInputList v ks m) k =
      if k ∈ ks then ⟨some (addList v ((m k).input.getD [])), (m k).output⟩ else m k := by
  induction ks generalizing m with
  | nil => simp [addInputList]
  | cons k0 rest ih =>
    show (addInputList v rest (addInputKey m k0 v)) k = _
    rw [ih]
    by_cases hk : k = k0
    · subst hk
      by_cases hr : k ∈ rest <;>
        simp [hr, addInputKey, addList_idem, List.mem_cons]
    · by_cases hr : k ∈ rest <;>
        simp [hr, addInputKey, hk, List.mem_cons]

/-- Pointwise value of a fold of `addOutputKey` over a key list. -/
theorem addOutputList_apply (v : String) (ks : List String) (m : VarMap) (k : String) :
    (addOutputList v ks m) k =
      if k ∈ ks then ⟨(m k).input, some (addList v ((m k).output.getD []))⟩ else m k := by
  induction ks generalizing m with
  | nil => simp [addOutputList]
  | cons k0 rest ih =>
    show (addOutputList v rest (addOutputKey m k0 v)) k = _
    rw [ih]
    by_cases hk : k = k0
    · subst hk
      by_cases hr : k ∈ rest <;>
        simp [hr, addOutputKey, addList_idem, List.mem_cons]
    · by_cases hr : k ∈ rest <;>
        simp [hr, addOutputKey, hk, List.mem_cons]

/-- Master pointwise description of `_calculate_composite_input_outputs`:
the `"input"` slot of a key gains the variable exactly when the key is in
the branch's input-key sequence, the `"output"` slot likewise, and every
other slot is untouched. -/
theorem calc_apply (v path1 path2 : String) (m : VarMap) (k : String) :
    (calcCompositeInputOutputs v path1 path2 m) k =
      ⟨if k ∈ calcInputKeys path1 path2
          then some (addList v ((m k).input.getD [])) else (m k).input,
       if k ∈ calcOutputKeys path1 path2
          then some (addList v ((m k).output.getD [])) else (m k).output⟩ := by
  unfold calcCompositeInputOutputs
  rw [addInputList_apply, addOutputList_apply]
  by_cases hi : k ∈ calcInputKeys path1 path2 <;>
    by_cases ho : k ∈ calcOutputKeys path1 path2 <;>
    simp [hi, ho]

/-! ## Facts about the path-string operations -/

theorem splitSeg_ne_nil (cs : List Char) : splitSeg cs ≠ [] := by
  induction cs with
  | nil => simp [splitSeg]
  | cons c cs ih =>
    unfold splitSeg
    split
    · simp
    · match h : splitSeg cs with
      | [] => simp
      | s :: ss => simp

theorem strSplit_ne_nil (s : String) : strSplit s ≠ [] := by
  unfold strSplit
  simp [splitSeg_ne_nil]

theorem strJoin_cons (a : String) (l : List String) (h : l ≠ []) :
    strJoin (a :: l) = a ++ "/" ++ strJoin l := by
  match l with
  | [] => exact absurd rfl h
  | b :: rest => rfl

theorem strJoin_append (l1 l2 : List String) (h1 : l1 ≠ []) (h2 : l2 ≠ []) :
    strJoin (l1 ++ l2) = strJoin l1 ++ "/" ++ strJoin l2 := by
  induction l1 with
  | nil => exact absurd rfl h1
  | cons a rest ih =>
    match rest with
    | [] =>
      simp only [List.nil_append, List.cons_append]
      rw [strJoin_cons a l2 h2]
      rfl
    | b :: rest' =>
      have hne : (b :: rest' : List String) ≠ [] := by simp
      have happ : (b :: rest') ++ l2 ≠ [] := by simp
      rw [List.cons_append, strJoin_cons a _ happ, strJoin_cons a _ hne, ih hne]
      simp [String.append_assoc]

theorem splitSeg_slash (cs : List Char) : splitSeg ('/' :: cs) = [] :: splitSeg cs := by
  show (if '/' = '/' then [] :: splitSeg cs else _) = [] :: splitSeg cs
  rw [if_pos rfl]

theorem splitSeg_cons_ne (c : Char) (cs : List Char) (h : c ≠ '/') :
    splitSeg (c :: cs) = (splitSeg cs).modifyHead (fun s => c :: s) := by
  show (if c = '/' then [] :: splitSeg cs
        else match splitSeg cs with
             | [] => [[c]]
             | s :: ss => (c :: s) :: ss) = _
  rw [if_neg h]
  match h' : splitSeg cs with
  | [] => exact absurd h' (splitSeg_ne_nil cs)
  | s :: ss => rfl

theorem splitSeg_append_slash (x y : List Char) :
    splitSeg (x ++ '/' :: y) = splitSeg x ++ splitSeg y := by
  induction x with
  | nil => rw [List.nil_append, splitSeg_slash]; rfl
  | cons c cs ih =>
    by_cases hc : c = '/'
    · subst hc
      rw [List.cons_append, splitSeg_slash, splitSeg_slash, ih, List.cons_append]
    · rw [List.cons_append, splitSeg_cons_ne c _ hc, splitSeg_cons_ne c _ hc, ih]
      match h' : splitSeg cs with
      | [] => exact absurd h' (splitSeg_ne_nil cs)
      | s :: ss => rfl

theorem string_eq_of_data {a b : String} (h : a.data = b.data) : a = b := by
  cases a; cases b; exact congrArg String.mk h

theorem string_data_append (a b : String) : (a ++ b).data = a.data ++ b.data := by
  cases a; cases b; rfl

theorem data_slash_append (a b : String) :
    (a ++ "/" ++ b).data = a.data ++ '/' :: b.data := by
  rw [string_data_append, string_data_append]
  simp

theorem strSplit_slash_append (a b : String) :
    strSplit (a ++ "/" ++ b) = strSplit a ++ strSplit b := by
  unfold strSplit
  rw [data_slash_append, splitSeg_append_slash, List.map_append]

theorem strJoin_splitSeg (cs : List Char) :
    strJoin ((splitSeg cs).map (fun l => String.mk l)) = String.mk cs := by
  induction cs with
  | nil => rfl
  | cons c cs ih =>
    by_cases hc : c = '/'
    · subst hc
      rw [splitSeg_slash, List.map_cons,
        strJoin_cons _ _ (by simp [splitSeg_ne_nil]), ih]
      apply string_eq_of_data
      rw [data_slash_append]
      rfl
    · rw [splitSeg_cons_ne c cs hc]
      match h' : splitSeg cs with
      | [] => exact absurd h' (splitSeg_ne_nil cs)
      | s :: ss =>
        rw [h'] at ih
        simp only [List.modifyHead, List.map_cons]
        match ss with
        | [] =>
          show String.mk (c :: s) = String.mk (c :: cs)
          have h2 : s = cs := by
            have : String.mk s = String.mk cs := ih
            injection this
          rw [h2]
        | t :: ts =>
          simp only [List.map_cons] at ih ⊢
          have hne2 : (String.mk t :: ts.map (fun l => String.mk l) : List String) ≠ [] := by
            simp
          rw [strJoin_cons _ _ hne2] at ih
          rw [strJoin_cons _ _ hne2]
          apply string_eq_of_data
          have hdata := congrArg String.data ih
          rw [data_slash_append] at hdata
          rw [data_slash_append]
          exact congrArg (fun l => c :: l)
            (show s ++ '/' :: _ = cs from hdata)

theorem strJoin_strSplit (s : String) : strJoin (strSplit s) = s := by
  unfold strSplit
  rw [strJoin_splitSeg]

theorem strJoin_take_length_lt (s : List String) (a b : Nat)
    (ha : 1 ≤ a) (hab : a < b) (hb : b ≤ s.length) :
    (strJoin (s.take a)).length < (strJoin (s.take b)).length := by
  have hsplit : s.take b = s.take a ++ (s.drop a).take (b - a) := by
    have h : a + (b - a) = b := by omega
    conv_lhs => rw [← h]
    rw [List.take_add]
  have hA : s.take a ≠ [] := by
    apply List.ne_nil_of_length_pos
    rw [List.length_take]
    exact lt_min (by omega) (by omega)
  have hB : (s.drop a).take (b - a) ≠ [] := by
    apply List.ne_nil_of_length_pos
    rw [List.length_take, List.length_drop]
    exact lt_min (by omega) (by omega)
  rw [hsplit, strJoin_append _ _ hA hB, String.length_append, String.length_append]
  have h1 : ("/" : String).length = 1 := rfl
  omega

/-! ## Claim C1: downstream-from-boundary adds inputs at depths 2..full,
skipping the depth-1 scope -/

/-- C1: for a flat link whose producer is the graph-boundary sentinel
(`path1 = ""`) and whose consumer scope `path2` is non-root,
`_calculate_composite_input_outputs` adds the variable to the
required-input set of every prefix of the consumer path from depth 2
through its full depth inclusive, and leaves the depth-1 prefix's entry
completely unchanged. -/
theorem C1_downstream_boundary_skip (v path2 : String) (m : VarMap)
    (hC : path2 ≠ "") :
    (∀ d, 2 ≤ d → d ≤ (strSplit path2).length →
      v ∈ (((calcCompositeInputOutputs v "" path2 m)
             (strJoin ((strSplit path2).take d))).input.getD []))
    ∧ (calcCompositeInputOutputs v "" path2 m) (strJoin ((strSplit path2).take 1))
        = m (strJoin ((strSplit path2).take 1)) := by
  have hlen : 1 ≤ (strSplit path2).length :=
    List.length_pos.mpr (strSplit_ne_nil path2)
  have hkeysI : calcInputKeys "" path2 =
      (List.range' 1 ((strSplit path2).length - 1)).map
        (fun i => strJoin ((strSplit path2).take (i + 1))) := by
    simp [calcInputKeys]
  have hkeysO : calcOutputKeys "" path2 = [] := by
    simp [calcOutputKeys]
  constructor
  · intro d h2 hn
    rw [calc_apply]
    have hmem : strJoin ((strSplit path2).take d) ∈ calcInputKeys "" path2 := by
      rw [hkeysI]
      refine List.mem_map.mpr ⟨d - 1, List.mem_range'_1.mpr (by omega), ?_⟩
      congr 2
      omega
    rw [if_pos hmem]
    simp [addList_mem]
  · rw [calc_apply, hkeysO]
    have hnot : strJoin ((strSplit path2).take 1) ∉ calcInputKeys "" path2 := by
      rw [hkeysI]
      intro hmem
      obtain ⟨i, hi, heq⟩ := List.mem_map.mp hmem
      rw [List.mem_range'_1] at hi
      have hlt := strJoin_take_length_lt (strSplit path2) 1 (i + 1)
        (by omega) (by omega) (by omega)
      rw [heq] at hlt
      omega
    rw [if_neg hnot]
    simp

/-- Witness for C1 at consumer path `x/y/z`: the variable lands in the
required inputs of the depth-3 prefix, and the depth-1 prefix entry is
untouched. -/
theorem C1_witness :
    ("x/y/z" ≠ "") ∧
    ("a" ∈ (((calcCompositeInputOutputs "a" "" "x/y/z" emptyVarMap)
       (strJoin ((strSplit "x/y/z").take 3))).input.getD [])) ∧
    (calcCompositeInputOutputs "a" "" "x/y/z" emptyVarMap)
        (strJoin ((strSplit "x/y/z").take 1))
      = emptyVarMap (strJoin ((strSplit "x/y/z").take 1)) :=
  ⟨by decide,
   (C1_downstream_boundary_skip "a" "x/y/z" emptyVarMap (by decide)).1 3
     (by decide) (by decide),
   (C1_downstream_boundary_skip "a" "x/y/z" emptyVarMap (by decide)).2⟩

/-! ## Claim C5: upstream-to-boundary adds outputs at depths 1..full -/

/-- C5: for a flat link whose consumer is the graph-boundary sentinel
(`path2 = ""`) and whose producer scope `path1` is non-root,
`_calculate_composite_input_outputs` adds the variable to the
required-output set of every prefix of the producer path from depth 1
(root-adjacent scope included, unlike the downstream case) through its
full depth inclusive. -/
theorem C5_upstream_boundary_full (v path1 : String) (m : VarMap)
    (hP : path1 ≠ "") :
    ∀ d, 1 ≤ d → d ≤ (strSplit path1).length →
      v ∈ (((calcCompositeInputOutputs v path1 "" m)
             (strJoin ((strSplit path1).take d))).output.getD []) := by
  intro d h1 hn
  have hkeysO : calcOutputKeys path1 "" =
      (List.range (strSplit path1).length).map
        (fun i => strJoin ((strSplit path1).take (i + 1))) := by
    simp [calcOutputKeys, hP]
  rw [calc_apply]
  have hmem : strJoin ((strSplit path1).take d) ∈ calcOutputKeys path1 "" := by
    rw [hkeysO]
    refine List.mem_map.mpr ⟨d - 1, List.mem_range.mpr (by omega), ?_⟩
    congr 2
    omega
  rw [if_pos hmem]
  simp [addList_mem]

/-- Witness for C5 at producer path `x/y`, depth 1: the root-adjacent
scope `x` receives the variable as a required output. -/
theorem C5_witness :
    ("x/y" ≠ "") ∧
    "b" ∈ (((calcCompositeInputOutputs "b" "x/y" "" emptyVarMap)
       (strJoin ((strSplit "x/y").take 1))).output.getD []) :=
  ⟨by decide,
   C5_upstream_boundary_full "b" "x/y" emptyVarMap (by decide) 1
     (by decide) (by decide)⟩

/-! ## Claims C2/C3: consumer-ancestor links (producer deeper) -/

theorem slash_ne_empty (a b : String) : a ++ "/" ++ b ≠ "" := by
  intro h
  have hd := congrArg String.data h
  rw [data_slash_append] at hd
  simp at hd

theorem startsWith_slash (a b : String) : strStartsWith (a ++ "/" ++ b) a = true := by
  unfold strStartsWith
  rw [data_slash_append]
  exact List.isPrefixOf_iff_prefix.mpr ⟨'/' :: b.data, rfl⟩

theorem ne_slash_extend (a x : String) : a ≠ a ++ "/" ++ x := by
  intro h
  have hl := congrArg String.length h
  rw [String.length_append, String.length_append] at hl
  have h1 : ("/" : String).length = 1 := rfl
  omega

/-- In the consumer-ancestor branch (line 59: `path1.startswith(path2)` with
`path1 = C ++ "/" ++ rest`, `path2 = C`), the output keys are the joins of
`C` with each prefix of the split of `rest`, and no input keys exist. -/
theorem consumer_ancestor_keys (C rest : String) (hC : C ≠ "") :
    calcOutputKeys (C ++ "/" ++ rest) C =
      (List.range (strSplit rest).length).map
        (fun i => C ++ "/" ++ strJoin ((strSplit rest).take (i + 1)))
    ∧ calcInputKeys (C ++ "/" ++ rest) C = [] := by
  constructor
  · unfold calcOutputKeys
    rw [if_neg (slash_ne_empty C rest), if_neg hC]
    simp only [startsWith_slash, if_true]
    rw [strSplit_slash_append, List.drop_left]
  · unfold calcInputKeys
    rw [if_neg (slash_ne_empty C rest), if_neg hC]
    simp only [startsWith_slash, if_true]

/-- C2: for a producer at scope path `a ++ "/" ++ b` and a consumer at its
ancestor scope `a` (non-root), the propagator adds the variable to the
required-output set of the producer scope `a/b`, and leaves the consumer
scope `a`'s entry (both sets) completely unchanged: the affected range is
inclusive of the producer's scope and exclusive of the consumer's. -/
theorem C2_consumer_ancestor_range (v a b : String) (m : VarMap)
    (ha : a ≠ "") :
    (v ∈ (((calcCompositeInputOutputs v (a ++ "/" ++ b) a m)
            (a ++ "/" ++ b)).output.getD []))
    ∧ (calcCompositeInputOutputs v (a ++ "/" ++ b) a m) a = m a := by
  obtain ⟨hO, hI⟩ := consumer_ancestor_keys a b ha
  have hlen : 1 ≤ (strSplit b).length :=
    List.length_pos.mpr (strSplit_ne_nil b)
  constructor
  · rw [calc_apply, hI, hO]
    have hmem : a ++ "/" ++ b ∈
        (List.range (strSplit b).length).map
          (fun i => a ++ "/" ++ strJoin ((strSplit b).take (i + 1))) := by
      refine List.mem_map.mpr ⟨(strSplit b).length - 1, List.mem_range.mpr (by omega), ?_⟩
      have h1 : (strSplit b).length - 1 + 1 = (strSplit b).length := by omega
      rw [h1, List.take_length, strJoin_strSplit]
    rw [if_pos hmem]
    simp [addList_mem]
  · rw [calc_apply, hI, hO]
    have hnot : a ∉
        (List.range (strSplit b).length).map
          (fun i => a ++ "/" ++ strJoin ((strSplit b).take (i + 1))) := by
      intro hmem
      obtain ⟨i, _, heq⟩ := List.mem_map.mp hmem
      exact ne_slash_extend a _ heq.symm
    rw [if_neg (by simp), if_neg hnot]

/-- Witness for C2 at producer `x/y`, consumer `x`. -/
theorem C2_witness :
    ("x" ≠ "") ∧
    ("c" ∈ (((calcCompositeInputOutputs "c" ("x" ++ "/" ++ "y") "x" emptyVarMap)
            ("x" ++ "/" ++ "y")).output.getD [])) ∧
    (calcCompositeInputOutputs "c" ("x" ++ "/" ++ "y") "x" emptyVarMap) "x"
      = emptyVarMap "x" :=
  ⟨by decide,
   (C2_consumer_ancestor_range "c" "x" "y" emptyVarMap (by decide)).1,
   (C2_consumer_ancestor_range "c" "x" "y" emptyVarMap (by decide)).2⟩

/-- Counterexample to C3 as stated: for consumer `C = "a"` a strict prefix
of producer `P = "a/b"`, the claim says the variable is added to the
required-INPUT set of every scope strictly between `P` (exclusive) and `C`
(inclusive) — here exactly scope `"a"` — but after the call scope `"a"`
has no input entry at all (so the variable is in no required-input set),
and the variable sits in the required-OUTPUT set of `"a/b"` instead. -/
theorem C3_counterexample :
    ((calcCompositeInputOutputs "v" "a/b" "a" emptyVarMap) "a").input = none
    ∧ ((calcCompositeInputOutputs "v" "a/b" "a" emptyVarMap) "a/b").output
        = some ["v"] := by
  constructor <;> decide

/-- C3 as amended: when the consumer scope `C` is a strict prefix of the
producer scope `P = C ++ "/" ++ rest`, the propagator adds the variable to
the required-OUTPUT set of every scope strictly between `C` (exclusive) and
`P` (inclusive), and touches no other scope's sets. -/
theorem C3_amended_consumer_ancestor (v C rest : String) (m : VarMap)
    (hC : C ≠ "") :
    (∀ i, i < (strSplit rest).length →
      v ∈ (((calcCompositeInputOutputs v (C ++ "/" ++ rest) C m)
             (C ++ "/" ++ strJoin ((strSplit rest).take (i + 1)))).output.getD []))
    ∧ (∀ k, (∀ i, i < (strSplit rest).length →
          k ≠ C ++ "/" ++ strJoin ((strSplit rest).take (i + 1))) →
        (calcCompositeInputOutputs v (C ++ "/" ++ rest) C m) k = m k) := by
  obtain ⟨hO, hI⟩ := consumer_ancestor_keys C rest hC
  constructor
  · intro i hi
    rw [calc_apply, hI, hO]
    have hmem : C ++ "/" ++ strJoin ((strSplit rest).take (i + 1)) ∈
        (List.range (strSplit rest).length).map
          (fun j => C ++ "/" ++ strJoin ((strSplit rest).take (j + 1))) :=
      List.mem_map.mpr ⟨i, List.mem_range.mpr hi, rfl⟩
    rw [if_pos hmem]
    simp [addList_mem]
  · intro k hk
    rw [calc_apply, hI, hO]
    have hnot : k ∉
        (List.range (strSplit rest).length).map
          (fun j => C ++ "/" ++ strJoin ((strSplit rest).take (j + 1))) := by
      intro hmem
      obtain ⟨i, hi, heq⟩ := List.mem_map.mp hmem
      exact hk i (List.mem_range.mp hi) heq.symm
    rw [if_neg (by simp), if_neg hnot]

/-- Witness for the amended C3 at consumer `x`, producer `x/y/z`. -/
theorem C3_amended_witness :
    ("x" ≠ "") ∧
    ("w" ∈ (((calcCompositeInputOutputs "w" ("x" ++ "/" ++ "y/z") "x" emptyVarMap)
        ("x" ++ "/" ++ strJoin ((strSplit "y/z").take 1))).output.getD [])) ∧
    (calcCompositeInputOutputs "w" ("x" ++ "/" ++ "y/z") "x" emptyVarMap) "other"
      = emptyVarMap "other" :=
  ⟨by decide,
   (C3_amended_consumer_ancestor "w" "x" "y/z" emptyVarMap (by decide)).1 0
     (by decide),
   (C3_amended_consumer_ancestor "w" "x" "y/z" emptyVarMap (by decide)).2 "other"
     (by decide)⟩

/-! ## Claim C4: the cross-stream branch is unreachable when one path
string merely starts with the other -/

/-- C4 failing input: producer scope `a/bc` and consumer scope `a/b` are
divergent as paths (neither is a segment-wise prefix of the other, shared
ancestor `a`), but line 59's `path1.startswith(path2)` is a plain string
test, so the call takes the "entirely upstream" branch with an empty
`partial_split` and changes nothing at all — no scope receives the
variable in either set, while the claim requires `a/bc` to gain a
required output and `a/b` a required input. -/
theorem C4_startswith_no_separator_check (v : String) (m : VarMap) :
    calcCompositeInputOutputs v "a/bc" "a/b" m = m := by
  funext k
  rw [calc_apply]
  have hI : calcInputKeys "a/bc" "a/b" = [] := by decide
  have hO : calcOutputKeys "a/bc" "a/b" = [] := by decide
  rw [hI, hO]
  simp

/-! ## Claim C6: idempotent, duplicate-free, order-preserving aggregation -/

/-- One Interface Propagator pass over a flat link list, each element being
the `(var_name, path1, path2)` triple of one
`_calculate_composite_input_outputs` call issued by
`_compile_onnx_composite_link_map`. -/
def propagateLinks (links : List (String × String × String)) (m : VarMap) : VarMap :=
  links.foldl (fun m t => calcCompositeInputOutputs t.1 t.2.1 t.2.2 m) m

/-- The `"input"` slot of scope `k` already records `v`. -/
def InSat (v : String) (m : VarMap) (k : String) : Prop :=
  ∃ l, (m k).input = some l ∧ v ∈ l

/-- The `"output"` slot of scope `k` already records `v`. -/
def OutSat (v : String) (m : VarMap) (k : String) : Prop :=
  ∃ l, (m k).output = some l ∧ v ∈ l

theorem calc_fix (v p1 p2 : String) (m : VarMap)
    (hin : ∀ k ∈ calcInputKeys p1 p2, InSat v m k)
    (hout : ∀ k ∈ calcOutputKeys p1 p2, OutSat v m k) :
    calcCompositeInputOutputs v p1 p2 m = m := by
  funext k
  rw [calc_apply]
  have h1 : (if k ∈ calcInputKeys p1 p2
      then some (addList v ((m k).input.getD [])) else (m k).input) = (m k).input := by
    split
    · obtain ⟨l, hl, hv⟩ := hin k ‹_›
      rw [hl]
      simp [addList_of_mem hv]
    · rfl
  have h2 : (if k ∈ calcOutputKeys p1 p2
      then some (addList v ((m k).output.getD [])) else (m k).output) = (m k).output := by
    split
    · obtain ⟨l, hl, hv⟩ := hout k ‹_›
      rw [hl]
      simp [addList_of_mem hv]
    · rfl
  rw [h1, h2]

theorem insat_mono (v v' p1 p2 : String) {m : VarMap} {k : String}
    (h : InSat v m k) : InSat v (calcCompositeInputOutputs v' p1 p2 m) k := by
  obtain ⟨l, hl, hv⟩ := h
  by_cases hk : k ∈ calcInputKeys p1 p2
  · exact ⟨addList v' l, by simp [calc_apply, hk, hl], mem_addList_of_mem hv⟩
  · exact ⟨l, by simp [calc_apply, hk, hl], hv⟩

theorem outsat_mono (v v' p1 p2 : String) {m : VarMap} {k : String}
    (h : OutSat v m k) : OutSat v (calcCompositeInputOutputs v' p1 p2 m) k := by
  obtain ⟨l, hl, hv⟩ := h
  by_cases hk : k ∈ calcOutputKeys p1 p2
  · exact ⟨addList v' l, by simp [calc_apply, hk, hl], mem_addList_of_mem hv⟩
  · exact ⟨l, by simp [calc_apply, hk, hl], hv⟩

theorem calc_sat_in (v p1 p2 : String) (m : VarMap) :
    ∀ k ∈ calcInputKeys p1 p2, InSat v (calcCompositeInputOutputs v p1 p2 m) k := by
  intro k hk
  exact ⟨addList v ((m k).input.getD []), by simp [calc_apply, hk], addList_mem _ _⟩

theorem calc_sat_out (v p1 p2 : String) (m : VarMap) :
    ∀ k ∈ calcOutputKeys p1 p2, OutSat v (calcCompositeInputOutputs v p1 p2 m) k := by
  intro k hk
  exact ⟨addList v ((m k).output.getD []), by simp [calc_apply, hk], addList_mem _ _⟩

theorem propagate_mono_in (L : List (String × String × String)) {v : String}
    {m : VarMap} {k : String} (h : InSat v m k) : InSat v (propagateLinks L m) k := by
  induction L generalizing m with
  | nil => exact h
  | cons t rest ih => exact ih (insat_mono v t.1 t.2.1 t.2.2 h)

theorem propagate_mono_out (L : List (String × String × String)) {v : String}
    {m : VarMap} {k : String} (h : OutSat v m k) : OutSat v (propagateLinks L m) k := by
  induction L generalizing m with
  | nil => exact h
  | cons t rest ih => exact ih (outsat_mono v t.1 t.2.1 t.2.2 h)

theorem propagate_sat (L : List (String × String × String)) (m : VarMap) :
    ∀ t ∈ L, (∀ k ∈ calcInputKeys t.2.1 t.2.2, InSat t.1 (propagateLinks L m) k)
      ∧ (∀ k ∈ calcOutputKeys t.2.1 t.2.2, OutSat t.1 (propagateLinks L m) k) := by
  induction L generalizing m with
  | nil => intro t ht; exact absurd ht (List.not_mem_nil t)
  | cons t0 rest ih =>
    intro t ht
    rcases List.mem_cons.mp ht with heq | hrest
    · subst heq
      constructor
      · intro k hk
        exact propagate_mono_in rest (calc_sat_in t.1 t.2.1 t.2.2 m k hk)
      · intro k hk
        exact propagate_mono_out rest (calc_sat_out t.1 t.2.1 t.2.2 m k hk)
    · exact ih (calcCompositeInputOutputs t0.1 t0.2.1 t0.2.2 m) t hrest

theorem propagate_fix (L : List (String × String × String)) (M : VarMap)
    (h : ∀ t ∈ L, (∀ k ∈ calcInputKeys t.2.1 t.2.2, InSat t.1 M k)
      ∧ (∀ k ∈ calcOutputKeys t.2.1 t.2.2, OutSat t.1 M k)) :
    propagateLinks L M = M := by
  induction L with
  | nil => rfl
  | cons t0 rest ih =>
    have h0 := h t0 (List.mem_cons_self t0 rest)
    have hfix : calcCompositeInputOutputs t0.1 t0.2.1 t0.2.2 M = M :=
      calc_fix t0.1 t0.2.1 t0.2.2 M h0.1 h0.2
    show propagateLinks rest (calcCompositeInputOutputs t0.1 t0.2.1 t0.2.2 M) = M
    rw [hfix]
    exact ih (fun t ht => h t (List.mem_cons_of_mem t0 ht))

theorem calc_entries_nodup {m : VarMap}
    (h : ∀ k, ((m k).input.getD []).Nodup ∧ ((m k).output.getD []).Nodup)
    (v p1 p2 : String) :
    ∀ k, (((calcCompositeInputOutputs v p1 p2 m) k).input.getD []).Nodup
      ∧ (((calcCompositeInputOutputs v p1 p2 m) k).output.getD []).Nodup := by
  intro k
  rw [calc_apply]
  constructor
  · by_cases hk : k ∈ calcInputKeys p1 p2 <;> simp [hk, addList_nodup, (h k).1]
  · by_cases hk : k ∈ calcOutputKeys p1 p2 <;> simp [hk, addList_nodup, (h k).2]

theorem propagate_entries_nodup (L : List (String × String × String)) {m : VarMap}
    (h : ∀ k, ((m k).input.getD []).Nodup ∧ ((m k).output.getD []).Nodup) :
    ∀ k, (((propagateLinks L m) k).input.getD []).Nodup
      ∧ (((propagateLinks L m) k).output.getD []).Nodup := by
  induction L generalizing m with
  | nil => exact h
  | cons t rest ih => exact ih (calc_entries_nodup h t.1 t.2.1 t.2.2)

/-- C6: the Interface Propagator's additions are idempotent and
order-preserving. (a) A repeated `_calculate_composite_input_outputs` call
with the same variable and paths leaves the `var_map` exactly as after the
first call; (b) a second Propagator pass over the same flat link list
leaves the accumulated map unchanged; (c) a Propagator run never produces
a duplicate variable name in any scope's required-input or required-output
list; (d) a call only ever extends a scope's lists at the back, so
first-seen insertion order is retained. -/
theorem C6_idempotent_aggregation :
    (∀ v p1 p2 m, calcCompositeInputOutputs v p1 p2 (calcCompositeInputOutputs v p1 p2 m)
        = calcCompositeInputOutputs v p1 p2 m)
    ∧ (∀ (L : List (String × String × String)) m,
        propagateLinks L (propagateLinks L m) = propagateLinks L m)
    ∧ (∀ (L : List (String × String × String)) k,
        (((propagateLinks L emptyVarMap) k).input.getD []).Nodup
          ∧ (((propagateLinks L emptyVarMap) k).output.getD []).Nodup)
    ∧ (∀ v p1 p2 m k,
        ((m k).input.getD []) <+:
          (((calcCompositeInputOutputs v p1 p2 m) k).input.getD [])
        ∧ ((m k).output.getD []) <+:
          (((calcCompositeInputOutputs v p1 p2 m) k).output.getD [])) := by
  refine ⟨?_, ?_, ?_, ?_⟩
  · intro v p1 p2 m
    exact calc_fix v p1 p2 _ (calc_sat_in v p1 p2 m) (calc_sat_out v p1 p2 m)
  · intro L m
    exact propagate_fix L _ (propagate_sat L m)
  · intro L k
    exact propagate_entries_nodup L (fun k => by simp [emptyVarMap]) k
  · intro v p1 p2 m k
    rw [calc_apply]
    constructor
    · by_cases hk : k ∈ calcInputKeys p1 p2 <;> simp [hk, addList_pre]
    · by_cases hk : k ∈ calcOutputKeys p1 p2 <;> simp [hk, addList_pre]

/-! ## Data model of the flat graph and of the assembled graphbook tree

The classes below come from modules of this repository that are not under
`src/` (`src/onnx/onnx_helper.py` and `src/graph.py`); only the fields the
converter reads/writes are modelled. -/

/-- Modelled from the spec: `OnnxLink` of the absent `src/onnx/onnx_helper.py`
(§3 FlatLink: variable name, producer endpoint, consumer endpoint; the
graph-boundary sentinel is the graph's own name). -/
structure OnnxLink where
  var_name : String
  source : String
  sink : String
deriving DecidableEq

/-- Modelled from the spec: `OnnxOperation` of the absent
`src/onnx/onnx_helper.py` (§3 FlatOperation: identity, owning scope path —
`None` or `""` meaning root — and ordered input/output variable names; the
opaque primitive metadata is not modelled because no claim reads it). -/
structure OnnxOperation where
  name : String
  composite_path : Option String
  input : List String
  output : List String
deriving DecidableEq

/-- Modelled from the spec: `OnnxGraph` of the absent
`src/onnx/onnx_helper.py` (§6: flat operations, flat links, and the graph's
externally declared input and output variable name lists). -/
structure OnnxGraph where
  name : String
  inputs : List String
  outputs : List String
  onnx_ops : List OnnxOperation
  onnx_links : List OnnxLink
deriving DecidableEq

/-- Modelled from the spec: `graphbook.Variable` of the absent
`src/graph.py` (only the `name` field is read by the converter's link
logic; the type/shape/primitive-name metadata is not modelled because no
claim reads it). -/
structure GBVariable where
  name : String
deriving DecidableEq

/-- Modelled from the spec: `graphbook.LinkEndpoint` of the absent
`src/graph.py` (§3 Link endpoint: `"this"` or an operation identity, plus
the variable name carried in `data`). -/
structure GBEndpoint where
  operation : String
  data : String
deriving DecidableEq

/-- Modelled from the spec: `graphbook.Link` of the absent `src/graph.py`
(§3 assembled Link). `var_name` is only set by the direct-child branch of
`_compile_links_between_composite_and_primitive`; elsewhere it is unset. -/
structure GBLink where
  source : GBEndpoint
  sink : GBEndpoint
  var_name : Option String
deriving DecidableEq

/-- Modelled from the spec: `graphbook.Operation` of the absent
`src/graph.py` (§3 CompositeNode: identity, declared inputs/outputs,
children, internal links).  The `primitive_name`/`type` metadata is not
modelled because no claim reads it. -/
inductive GBOp where
  | mk (name : String) (inputs : List GBVariable) (outputs : List GBVariable)
       (operations : List GBOp) (links : List GBLink)

def GBOp.name : GBOp → String
  | .mk n _ _ _ _ => n

def GBOp.inputs : GBOp → List GBVariable
  | .mk _ i _ _ _ => i

def GBOp.outputs : GBOp → List GBVariable
  | .mk _ _ o _ _ => o

def GBOp.operations : GBOp → List GBOp
  | .mk _ _ _ ops _ => ops

def GBOp.links : GBOp → List GBLink
  | .mk _ _ _ _ ls => ls

/-- Append one internal link (Python `composite.links.append(...)`). -/
def GBOp.addLink : GBOp → GBLink → GBOp
  | .mk n i o ops ls, l => .mk n i o ops (ls ++ [l])

/-- Append one child operation (Python `parent.operations.append(...)`). -/
def GBOp.addChild : GBOp → GBOp → GBOp
  | .mk n i o ops ls, c => .mk n i o (ops ++ [c]) ls

mutual

/-- Structural equality on graphbook operations: the behaviour of Python's
`==` (pydantic models compare field by field), used by the
`primitive_source in composite.operations` membership test. -/
def GBOp.beq : GBOp → GBOp → Bool
  | .mk n i o ops ls, .mk n' i' o' ops' ls' =>
    n == n' && i == i' && o == o' && GBOp.beqList ops ops' && ls == ls'

/-- Elementwise `GBOp.beq` on child lists. -/
def GBOp.beqList : List GBOp → List GBOp → Bool
  | [], [] => true
  | a :: as, b :: bs => GBOp.beq a b && GBOp.beqList as bs
  | _, _ => false

end

/-- Python `x in lst` over graphbook operations. -/
def GBOp.memList (x : GBOp) : List GBOp → Bool
  | [] => false
  | a :: as => GBOp.beq a x || GBOp.memList x as

/-! ## The link-map compiler and assembly pipeline -/

/-- Python truthiness of an optional path string: `None` and `""` are falsy. -/
def pathTruthy (p : Option String) : Bool := p.getD "" != ""

/-- `name_to_op` lookup (line 490: `{op.name: op for op in onnx_graph.onnx_ops}`;
a later duplicate name overwrites an earlier one). -/
def lookupOp (ops : List OnnxOperation) (n : String) : Option OnnxOperation :=
  ops.reverse.find? (fun op => op.name == n)

/-- The exception kinds the converter can raise (`KeyError` and the four
`ValueError` sites; `unresolvedEndpoint` is line 320's
`Link sink ... not recognized`). -/
inductive ConvError where
  | keyError (key : String)
  | unresolvedEndpoint (sink : String)
  | expectedInCompositeOutputs
  | expectedInCompositeInputs
  | sourceNameNotLonger
deriving DecidableEq

/-- `composite_link_map`: a `defaultdict(list)` with insertion-ordered keys
(Python dicts iterate in first-insertion order). -/
structure LinkMap where
  keys : List String
  find : String → List OnnxLink

def LinkMap.empty : LinkMap := ⟨[], fun _ => []⟩

def LinkMap.add (lm : LinkMap) (k : String) (l : OnnxLink) : LinkMap :=
  ⟨if k ∈ lm.keys then lm.keys else lm.keys ++ [k],
   fun q => if q = k then lm.find q ++ [l] else lm.find q⟩

/-- The body of the `for link in onnx_graph.onnx_links` loop of
`_compile_onnx_composite_link_map` (lines 272-320), threading the link map
and the `composite_var_map` and surfacing the Python exceptions
(`KeyError` on a `name_to_op[...]` miss, the line-320 `ValueError`). -/
def linkMapStep (g : OnnxGraph) (n2o : String → Option OnnxOperation)
    (st : LinkMap × VarMap) (link : OnnxLink) :
    Except ConvError (LinkMap × VarMap) :=
  if link.sink = g.name then
    -- lines 273-280: a final output
    match n2o link.source with
    | none => .error (.keyError link.source)
    | some srcOp =>
        .ok (st.1.add g.name link,
             calcCompositeInputOutputs link.var_name
               (srcOp.composite_path.getD "") "" st.2)
  else if (n2o link.source).isSome ∧ link.var_name ∈ g.outputs then
    -- lines 282-285: silently dropped (`continue`)
    .ok st
  else
    match n2o link.sink with
    | some sinkOp =>
      if pathTruthy sinkOp.composite_path then
        -- lines 288-304
        let st1 := st.1.add (sinkOp.composite_path.getD "") link
        if link.source = g.name then
          .ok (st1, calcCompositeInputOutputs link.var_name ""
                      (sinkOp.composite_path.getD "") st.2)
        else
          match n2o link.source with
          | none => .error (.keyError link.source)
          | some srcOp =>
            if ¬ pathTruthy srcOp.composite_path
                ∨ sinkOp.composite_path ≠ srcOp.composite_path then
              .ok (st1, calcCompositeInputOutputs link.var_name
                          (srcOp.composite_path.getD "")
                          (sinkOp.composite_path.getD "") st.2)
            else
              .ok (st1, st.2)
      else if link.source = g.name then
        -- lines 305-306
        .ok (st.1.add g.name link, st.2)
      else
        match n2o link.source with
        | none => .error (.keyError link.source)
        | some srcOp =>
          if pathTruthy srcOp.composite_path then
            -- lines 307-315: composite to non-composite
            .ok (st.1.add g.name link,
                 calcCompositeInputOutputs link.var_name
                   (srcOp.composite_path.getD "")
                   (sinkOp.composite_path.getD "") st.2)
          else
            -- lines 316-317
            .ok (st.1.add g.name link, st.2)
    | none => .error (.unresolvedEndpoint link.sink)

/-- `_compile_onnx_composite_link_map` (lines 261-322). -/
def compileLinkMap (g : OnnxGraph) (n2o : String → Option OnnxOperation) :
    Except ConvError (LinkMap × VarMap) :=
  g.onnx_links.foldlM (linkMapStep g n2o) (LinkMap.empty, emptyVarMap)

/-- `onnx_op_to_graphbook` (lines 144-237), restricted to the fields the
link logic reads: the operation keeps its name, and each input/output
variable name becomes a `graphbook.Variable` of that name.  The metadata
enrichment (primitive names, attribute inputs, data types, operation type)
is not modelled: no claim and no routing step reads those fields. -/
def onnxOpToGraphbook (op : OnnxOperation) : GBOp :=
  .mk op.name (op.input.map (fun s => ⟨s⟩)) (op.output.map (fun s => ⟨s⟩)) [] []

/-- The grouping key of an operation in `_compile_onnx_composite_map`
(lines 246-256): its composite path when truthy, else the graph name. -/
def effPath (g : OnnxGraph) (op : OnnxOperation) : String :=
  if pathTruthy op.composite_path then op.composite_path.getD "" else g.name

/-- `composite_map[k]`: the operations grouped under key `k`, in input
order (defaultdict appends preserve it). -/
def compositeMapAt (g : OnnxGraph) (k : String) : List OnnxOperation :=
  g.onnx_ops.filter (fun op => effPath g op == k)

/-- Insertion into the `composite_names` set, modelled as an
insertion-ordered duplicate-free list (Python set iteration order is
unspecified; every claim settled below is independent of this order). -/
def insertName (l : List String) (s : String) : List String :=
  if s ∈ l then l else l ++ [s]

/-- `composite_names` after `_compile_onnx_composite_map` (lines 249-252),
starting from the caller's `{''}` (line 488): every prefix join of every
truthy composite path. -/
def compositeNames (g : OnnxGraph) : List String :=
  g.onnx_ops.foldl
    (fun acc op =>
      if pathTruthy op.composite_path then
        let split_path := strSplit (op.composite_path.getD "")
        (List.range split_path.length).foldl
          (fun acc i => insertName acc (strJoin (split_path.take (i + 1)))) acc
      else acc)
    [""]

/-- The scope-keyed store of assembled composites
(`graphbook_composite_map`); the Python shared-object mutation is modelled
by updating a scope's entry in place. -/
def GBMap : Type := String → Option GBOp

def GBMap.update (gm : GBMap) (k : String) (v : GBOp) : GBMap :=
  fun q => if q = k then some v else gm q

/-- `_compile_graphbook_operations_from_composite_map` (lines 325-378).
The root entry (`name = ""`, visited once since `compositeNames` is
duplicate-free) is stored under the graph's name with the graph's own
declared inputs/outputs (lines 348-350); every other scope takes its
interface from the propagated `composite_var_map`, absent keys defaulting
to `[]` exactly as lines 352-358 produce.  Lines 342-345 never extend the
root bucket because an operation with a falsy composite path is grouped
under the graph name, never under `''`. -/
def assembleComposites (g : OnnxGraph) (vm : VarMap) : GBMap :=
  (compositeNames g).foldl
    (fun gm name =>
      if name = "" then
        gm.update g.name (.mk g.name
          (g.inputs.map (fun s => ⟨s⟩)) (g.outputs.map (fun s => ⟨s⟩))
          ((compositeMapAt g g.name).map onnxOpToGraphbook) [])
      else
        gm.update name (.mk name
          (((vm name).input.getD []).map (fun s => ⟨s⟩))
          (((vm name).output.getD []).map (fun s => ⟨s⟩))
          ((compositeMapAt g name).map onnxOpToGraphbook) []))
    (fun _ => none)

/-- The `primitive_map` accumulated across lines 360-366: every flat
operation's converted form, keyed by name (each operation lands in exactly
one `composite_map` bucket, and every bucket is converted). -/
def primitiveMapOf (g : OnnxGraph) : String → Option GBOp :=
  fun n => (lookupOp g.onnx_ops n).map onnxOpToGraphbook

def GBOp.addLinks : GBOp → List GBLink → GBOp
  | .mk n i o ops ls, new => .mk n i o ops (ls ++ new)

/-- `_compile_links_between_composite` (lines 381-416): attach each
deeper-than-depth-1 scope to its parent and add boundary links for
name-matching declared inputs/outputs. -/
def wireComposites (g : OnnxGraph) (gm0 : GBMap) : Except ConvError GBMap :=
  (compositeNames g).foldlM
    (fun gm name =>
      if name = g.name then .ok gm
      else
        let split_name := strSplit name
        if split_name.length ≤ 1 then .ok gm
        else
          let parent0 := strJoin split_name.dropLast
          let parent_name := if parent0.length = 0 then g.name else parent0
          match gm name, gm parent_name with
          | some sub_op, some parent_composite =>
            let p1 := parent_composite.addChild sub_op
            let inLinks := sub_op.inputs.foldl
              (fun acc inp => acc ++
                (p1.inputs.filter (fun ci => ci.name == inp.name)).map
                  (fun _ => GBLink.mk ⟨"this", inp.name⟩ ⟨name, inp.name⟩ none)) []
            let outLinks := sub_op.outputs.foldl
              (fun acc out => acc ++
                (p1.outputs.filter (fun co => co.name == out.name)).map
                  (fun _ => GBLink.mk ⟨name, out.name⟩ ⟨"this", out.name⟩ none)) []
            .ok (gm.update parent_name (p1.addLinks (inLinks ++ outLinks)))
          | _, _ => .error (.keyError name))
    gm0

/-- One link's routing step of
`_compile_links_between_composite_and_primitive` (lines 431-482), resolved
against the composite named `composite_name`. -/
def routeLink (g : OnnxGraph) (pmap : String → Option GBOp) (gm : GBMap)
    (composite_name : String) (link : OnnxLink) : Except ConvError GBMap :=
  if link.source = g.name then .ok gm  -- line 432
  else
    match pmap link.source with
    | none => .error (.keyError link.source)  -- line 436 `primitive_map[...]`
    | some primitive_source =>
      match gm composite_name with
      | none => .error (.keyError composite_name)
      | some composite =>
        if primitive_source.memList composite.operations then
          -- lines 438-444: a plain link within this graph
          .ok (gm.update composite_name (composite.addLink
            ⟨⟨link.source, link.var_name⟩, ⟨link.sink, link.var_name⟩,
             some link.var_name⟩))
        else if composite_name = g.name then
          -- lines 445-455
          let sink_name := strJoin (strSplit primitive_source.name).dropLast
          match gm sink_name with
          | none => .error (.keyError sink_name)
          | some next_composite =>
            if link.var_name ∈ next_composite.outputs.map GBVariable.name then
              .ok (gm.update sink_name (next_composite.addLink
                ⟨⟨primitive_source.name, link.var_name⟩, ⟨"this", link.var_name⟩,
                 none⟩))
            else .error .expectedInCompositeOutputs  -- line 451
        else if ¬ strStartsWith primitive_source.name composite_name then
          -- lines 456-464: source from outside this subtree
          if link.var_name ∈ composite.inputs.map GBVariable.name then
            .ok (gm.update composite_name (composite.addLink
              ⟨⟨"this", link.var_name⟩, ⟨link.sink, link.var_name⟩, none⟩))
          else .error .expectedInCompositeInputs  -- line 459
        else
          -- lines 466-482: source from deeper inside this subtree
          let split_name := strSplit primitive_source.name
          let split_composite_name := strSplit composite_name
          if split_name.length ≤ split_composite_name.length then
            .error .sourceNameNotLonger  -- line 472
          else
            let next_composite_name :=
              strJoin (split_name.take (split_composite_name.length + 1))
            match gm next_composite_name with
            | none => .error (.keyError next_composite_name)
            | some next_composite =>
              if link.var_name ∈ next_composite.outputs.map GBVariable.name then
                .ok (gm.update composite_name (composite.addLink
                  ⟨⟨next_composite_name, link.var_name⟩, ⟨link.sink, link.var_name⟩,
                   none⟩))
              else .error .expectedInCompositeOutputs  -- line 477

/-- `_compile_links_between_composite_and_primitive` (lines 419-482): for
each composite's link list, in link-map insertion order, route every link.
The composite is looked up before the per-link loop (line 428). -/
def routeAll (g : OnnxGraph) (pmap : String → Option GBOp) (gm0 : GBMap)
    (lm : LinkMap) : Except ConvError GBMap :=
  lm.keys.foldlM
    (fun gm composite_name =>
      match gm composite_name with
      | none => .error (.keyError composite_name)
      | some _ =>
        (lm.find composite_name).foldlM
          (fun gm link => routeLink g pmap gm composite_name link) gm)
    gm0

/-- `onnx_graph_to_graphbook` (lines 484-529): compile the link map (with
its ScopeInterface side effect), assemble the composites, wire
parent/child boundaries, route the remaining links, and return the root
composite. -/
def onnxGraphToGraphbook (g : OnnxGraph) : Except ConvError GBOp := do
  let lmvm ← compileLinkMap g (fun n => lookupOp g.onnx_ops n)
  let gm1 ← wireComposites g (assembleComposites g lmvm.2)
  let gm2 ← routeAll g (primitiveMapOf g) gm1 lmvm.1
  match gm2 g.name with
  | some root => .ok root
  | none => .error (.keyError g.name)

/-! ## Claim C7: root-level routing of a non-direct-child producer -/

/-- Concrete scenario for C7: graph `G` with one primitive `A/op` inside
the top-level scope `A`, producing variable `v` that is a final output. -/
def opC7 : OnnxOperation := ⟨"A/op", some "A", [], ["v"]⟩

def gC7 : OnnxGraph := ⟨"G", [], ["v"], [opC7], [⟨"v", "A/op", "G"⟩]⟩

def linkC7 : OnnxLink := ⟨"v", "A/op", "G"⟩

def psC7 : GBOp := onnxOpToGraphbook opC7

def pmapC7 : String → Option GBOp := fun n => if n = "A/op" then some psC7 else none

def rootC7 : GBOp := .mk "G" [] [⟨"v"⟩] [] []

def compC7A : GBOp := .mk "A" [] [⟨"v"⟩] [] []

def gmC7 : GBMap := fun n =>
  if n = "G" then some rootC7 else if n = "A" then some compC7A else none

def gmC7res : GBMap :=
  gmC7.update "A" (compC7A.addLink ⟨⟨"A/op", "v"⟩, ⟨"this", "v"⟩, none⟩)

/-- Counterexample to C7 as stated: routing the final-output link of
producer `A/op` (not a direct child of the root) at the root composite
does NOT emit a link scoped to the root whose source is the top-level
scope `A` and whose sink is the root's `"this"` boundary — the root's link
list stays empty (the code instead appends a link from the primitive to
`"this"` inside scope `A`'s own link list). -/
theorem C7_counterexample :
    Except.map (fun gm => ((gm "G").map GBOp.links, (gm "A").map GBOp.links))
        (routeLink gC7 pmapC7 gmC7 "G" linkC7)
      = .ok (some [], some [⟨⟨"A/op", "v"⟩, ⟨"this", "v"⟩, none⟩]) := rfl

/-- C7 as amended: when the node being resolved is the root and the
producing primitive is not a direct child, the router takes the producer's
immediate parent scope (its name minus the last path segment), fails
fatally if the variable is not already a declared output of that parent
scope, and otherwise appends, to that parent scope's own link list, a Link
from the producing primitive to that scope's `"this"` boundary. -/
theorem C7_amended_root_routing (g : OnnxGraph) (pmap : String → Option GBOp)
    (gm : GBMap) (link : OnnxLink) (ps composite parentC : GBOp)
    (hsrc : link.source ≠ g.name)
    (hps : pmap link.source = some ps)
    (hroot : gm g.name = some composite)
    (hnotchild : ps.memList composite.operations = false)
    (hparent : gm (strJoin (strSplit ps.name).dropLast) = some parentC) :
    (link.var_name ∈ parentC.outputs.map GBVariable.name →
      routeLink g pmap gm g.name link
        = .ok (gm.update (strJoin (strSplit ps.name).dropLast)
            (parentC.addLink ⟨⟨ps.name, link.var_name⟩, ⟨"this", link.var_name⟩, none⟩)))
    ∧ (link.var_name ∉ parentC.outputs.map GBVariable.name →
      routeLink g pmap gm g.name link = .error .expectedInCompositeOutputs) := by
  unfold routeLink
  rw [if_neg hsrc, hps, hroot]
  simp only [hnotchild, Bool.false_eq_true, if_false, eq_self_iff_true, if_true, hparent]
  constructor
  · intro hm
    rw [if_pos hm]
  · intro hm
    rw [if_neg hm]

/-- Witness for the amended C7: in the concrete scenario, the link is
appended inside scope `A` (the producer's parent), from the primitive
`A/op` to `A`'s own `"this"` boundary. -/
theorem C7_amended_witness :
    routeLink gC7 pmapC7 gmC7 gC7.name linkC7
      = .ok (gmC7.update (strJoin (strSplit psC7.name).dropLast)
          (compC7A.addLink
            ⟨⟨psC7.name, linkC7.var_name⟩, ⟨"this", linkC7.var_name⟩, none⟩)) :=
  (C7_amended_root_routing gC7 pmapC7 gmC7 linkC7 psC7 rootC7 compC7A
     (by decide) rfl rfl rfl rfl).1 (by decide)

/-! ## Claim C8: dangling consumer endpoints -/

/-- Concrete scenario for C8: one root operation `A` producing `v`, which
is also a declared graph output; the flat link sends `v` to the unknown
identity `ghost`. -/
def opC8 : OnnxOperation := ⟨"A", none, [], ["v"]⟩

def gC8 : OnnxGraph := ⟨"G", [], ["v"], [opC8], [⟨"v", "A", "ghost"⟩]⟩

/-- Counterexample to C8 as stated: the link's sink `"ghost"` is neither
the graph-boundary sentinel nor a known operation name, yet the conversion
does not fail — the link falls into the final-output filter (source known
and variable in the graph's declared outputs, lines 282-285) and is
silently dropped, and a complete tree is returned. -/
theorem C8_counterexample :
    (("ghost" : String) ≠ gC8.name ∧ lookupOp gC8.onnx_ops "ghost" = none)
    ∧ onnxGraphToGraphbook gC8
        = .ok (.mk "G" [] [⟨"v"⟩] [onnxOpToGraphbook opC8] []) :=
  ⟨⟨by decide, by decide⟩, rfl⟩

theorem except_bind_err {α β : Type} (e : ConvError) (k : α → Except ConvError β) :
    (Except.error e >>= k) = Except.error e := rfl

theorem except_bind_ok {α β : Type} (a : α) (k : α → Except ConvError β) :
    (Except.ok a >>= k) = k a := rfl

theorem foldlM_error_of_mem {α β : Type} (f : β → α → Except ConvError β)
    (L : List α) (x : α) (hx : x ∈ L)
    (herr : ∀ st, ∃ e, f st x = .error e) :
    ∀ st, ∃ e, L.foldlM f st = .error e := by
  induction L with
  | nil => cases hx
  | cons a as ih =>
    intro st
    rcases List.mem_cons.mp hx with rfl | has
    · obtain ⟨e, he⟩ := herr st
      exact ⟨e, by simp [List.foldlM_cons, he, except_bind_err]⟩
    · cases hf : f st a with
      | error e => exact ⟨e, by simp [List.foldlM_cons, hf, except_bind_err]⟩
      | ok st' =>
        obtain ⟨e, he⟩ := ih has st'
        exact ⟨e, by simp [List.foldlM_cons, hf, except_bind_ok, he]⟩

/-- C8 as amended: a flat link whose sink is neither the graph-boundary
sentinel nor a known operation name, and which is not caught by the
final-output filter (source known and variable among the graph's declared
outputs), makes its `_compile_onnx_composite_link_map` step raise
`UnresolvedEndpoint` (line 320) whatever the accumulated state is, and the
whole conversion can never return a tree. -/
theorem C8_amended_dangling_sink (g : OnnxGraph) (l : OnnxLink)
    (hmem : l ∈ g.onnx_links)
    (hsink : l.sink ≠ g.name)
    (hlook : lookupOp g.onnx_ops l.sink = none)
    (hnotfinal : ¬((lookupOp g.onnx_ops l.source).isSome = true
        ∧ l.var_name ∈ g.outputs)) :
    (∀ st, linkMapStep g (fun n => lookupOp g.onnx_ops n) st l
       = .error (.unresolvedEndpoint l.sink))
    ∧ ∀ t, onnxGraphToGraphbook g ≠ .ok t := by
  have hstep : ∀ st, linkMapStep g (fun n => lookupOp g.onnx_ops n) st l
      = .error (.unresolvedEndpoint l.sink) := by
    intro st
    unfold linkMapStep
    rw [if_neg hsink, if_neg hnotfinal]
    simp only [hlook]
  refine ⟨hstep, ?_⟩
  intro t heq
  have herr : ∃ e, compileLinkMap g (fun n => lookupOp g.onnx_ops n) = .error e := by
    unfold compileLinkMap
    exact foldlM_error_of_mem _ g.onnx_links l hmem
      (fun st => ⟨_, hstep st⟩) (LinkMap.empty, emptyVarMap)
  obtain ⟨e, he⟩ := herr
  unfold onnxGraphToGraphbook at heq
  rw [he] at heq
  exact Except.noConfusion heq

/-- Concrete scenario for the C8 witness: the dangling-sink link's
variable `w` is not a declared graph output, so the amended conditions
hold and the conversion fails. -/
def gC8w : OnnxGraph := ⟨"G", [], [], [opC8], [⟨"w", "A", "ghost"⟩]⟩

/-- Witness for the amended C8. -/
theorem C8_amended_witness :
    (∀ st, linkMapStep gC8w (fun n => lookupOp gC8w.onnx_ops n) st ⟨"w", "A", "ghost"⟩
       = .error (.unresolvedEndpoint "ghost"))
    ∧ ∀ t, onnxGraphToGraphbook gC8w ≠ .ok t :=
  C8_amended_dangling_sink gC8w ⟨"w", "A", "ghost"⟩ (by decide) (by decide)
    (by decide) (by decide)

/-! ## Claim C9: interface completeness of the assembled tree -/

/-- The interface-completeness check for declared inputs from the claim:
every declared input of the node is carried by at least one of its
internal links whose source endpoint is the `"this"` boundary. -/
def inputsComplete (t : GBOp) : Bool :=
  t.inputs.all (fun i => t.links.any (fun l =>
    l.source.operation == "this" && l.sink.data == i.name))

/-- Failing input for C9: a graph whose single root-level primitive `P`
consumes the declared graph input `v` through a boundary-sourced flat
link. -/
def opC9 : OnnxOperation := ⟨"P", none, ["v"], []⟩

def gC9 : OnnxGraph := ⟨"G", ["v"], [], [opC9], [⟨"v", "G", "P"⟩]⟩

/-- Evaluation of the code at the C9 failing input: the conversion
succeeds and returns a root composite that declares input `v` but whose
link list is empty (the router skips every boundary-sourced link at line
432, and no other component wires the root boundary), so interface
completeness is violated. -/
theorem C9_interface_incompleteness :
    Except.map (fun t => (t.inputs, t.links, inputsComplete t))
        (onnxGraphToGraphbook gC9)
      = .ok ([⟨"v"⟩], [], false) := rfl

/-! ## Claim C10: the final-output filter silently discards the link -/

theorem foldlM_skip {α β : Type} (f : β → α → Except ConvError β)
    (pre post : List α) (x : α) (hx : ∀ st, f st x = .ok st) (st : β) :
    (pre ++ x :: post).foldlM f st = (pre ++ post).foldlM f st := by
  induction pre generalizing st with
  | nil => simp [List.foldlM_cons, hx, except_bind_ok]
  | cons a as ih =>
    simp only [List.cons_append, List.foldlM_cons]
    cases hf : f st a with
    | error e => rw [except_bind_err, except_bind_err]
    | ok st' => rw [except_bind_ok, except_bind_ok, ih]

/-- `compileLinkMap` on a graph with replaced links, written over the
original graph (every other field of the record update reduces away). -/
theorem compileLinkMap_set_links (g : OnnxGraph) (links' : List OnnxLink)
    (n2o : String → Option OnnxOperation) :
    compileLinkMap { g with onnx_links := links' } n2o
      = links'.foldlM (linkMapStep g n2o) (LinkMap.empty, emptyVarMap) := rfl

/-- `onnxGraphToGraphbook` on a graph with replaced links: the only stage
reading the link list is `compileLinkMap`. -/
theorem onnxGraphToGraphbook_set_links (g : OnnxGraph) (links' : List OnnxLink) :
    onnxGraphToGraphbook { g with onnx_links := links' }
      = (links'.foldlM (linkMapStep g (fun n => lookupOp g.onnx_ops n))
            (LinkMap.empty, emptyVarMap)) >>= (fun lmvm =>
          (wireComposites g (assembleComposites g lmvm.2)) >>= fun gm1 =>
          (routeAll g (primitiveMapOf g) gm1 lmvm.1) >>= fun gm2 =>
          match gm2 g.name with
          | some root => .ok root
          | none => .error (.keyError g.name)) := rfl

/-- C10: a flat link whose sink is not the graph-boundary sentinel, whose
source resolves to a known operation, and whose variable name is among the
graph's declared external outputs is silently discarded: the compiled link
map and propagated ScopeInterface are exactly those of the same graph
without the link, and the whole conversion returns the identical tree. -/
theorem C10_final_output_filter (g : OnnxGraph) (pre post : List OnnxLink)
    (l : OnnxLink)
    (hsink : l.sink ≠ g.name)
    (hsrc : (lookupOp g.onnx_ops l.source).isSome = true)
    (hvar : l.var_name ∈ g.outputs) :
    compileLinkMap { g with onnx_links := pre ++ l :: post }
        (fun n => lookupOp g.onnx_ops n)
      = compileLinkMap { g with onnx_links := pre ++ post }
        (fun n => lookupOp g.onnx_ops n)
    ∧ onnxGraphToGraphbook { g with onnx_links := pre ++ l :: post }
      = onnxGraphToGraphbook { g with onnx_links := pre ++ post } := by
  have hstep : ∀ st, linkMapStep g (fun n => lookupOp g.onnx_ops n) st l = .ok st := by
    intro st
    unfold linkMapStep
    rw [if_neg hsink, if_pos ⟨hsrc, hvar⟩]
  constructor
  · rw [compileLinkMap_set_links, compileLinkMap_set_links]
    exact foldlM_skip _ pre post l hstep _
  · rw [onnxGraphToGraphbook_set_links, onnxGraphToGraphbook_set_links]
    rw [foldlM_skip _ pre post l hstep]

/-- Witness for C10: dropping the `v → ghost` link of the concrete C8
scenario changes nothing. -/
theorem C10_witness :
    compileLinkMap { gC8 with onnx_links := [] ++ (⟨"v", "A", "ghost"⟩ : OnnxLink) :: [] }
        (fun n => lookupOp gC8.onnx_ops n)
      = compileLinkMap { gC8 with onnx_links := [] ++ [] }
        (fun n => lookupOp gC8.onnx_ops n)
    ∧ onnxGraphToGraphbook { gC8 with onnx_links := [] ++ (⟨"v", "A", "ghost"⟩ : OnnxLink) :: [] }
      = onnxGraphToGraphbook { gC8 with onnx_links := [] ++ [] } :=
  C10_final_output_filter gC8 [] [] ⟨"v", "A", "ghost"⟩ (by decide) (by decide) (by decide)
